import Mathlib

/-!
Verification of the Upland auction Discord bot (`src/bot.py`).

The Python program keeps two SQLite tables (`auctions`, `bids`), three
process-wide maps (`current_auctions`, `outbid_watchers`,
`scheduled_messages`), and an APScheduler job queue.  We embed those as
explicit Lean state:

* SQLite TEXT timestamps compared with `datetime(...)` are modelled as
  `Nat` instants (ISO-8601 UTC strings compare chronologically).
* SQLite rows are structures; tables are `List`s in insertion (rowid)
  order; `ORDER BY ... LIMIT 1` is a fold that keeps the earliest row of
  the table among fully tied sort keys, matching the rowid scan order.
* asynchronous message sends are recorded in output lists instead of
  being performed; a DM that raises `discord.Forbidden` is modelled by
  the `dmOk` flag of a request being `false` (`confirm_bid` catches and
  swallows that exception).
-/

/-- A row of the `bids` table (`init_db`, bot.py:93-101): `auction_id`,
`user_id`, `amount INTEGER`, `bid_time_utc`. -/
structure Bid where
  auctionId : String
  userId : Nat
  amount : Int
  bidTime : Nat
  deriving DecidableEq, Repr

/-- The sort key `ORDER BY amount DESC, datetime(bid_time_utc) ASC`: row
`b` sorts strictly before row `c`. -/
def bidBeats (b c : Bid) : Bool :=
  b.amount > c.amount || (b.amount == c.amount && b.bidTime < c.bidTime)

/-- `... LIMIT 1` over rows in rowid order: keep the earlier row,
replacing it only when a later row sorts strictly before it. -/
def selectLeader : List Bid → Option Bid
  | [] => none
  | b :: rest =>
    match selectLeader rest with
    | none => some b
    | some c => if bidBeats c b then some c else some b

/-- `get_current_highest_now` (bot.py:205-212): leader over all recorded
bids of the auction, with no time bound. -/
def get_current_highest_now (auctionId : String) (bids : List Bid) : Option Bid :=
  selectLeader (bids.filter (fun b => b.auctionId == auctionId))

/-- The WHERE clause `datetime(b.bid_time_utc) <= datetime(a.end_time_utc)`
of `get_highest_bid_before_end`: when `end_time_utc` is NULL the SQL
comparison evaluates to NULL, so the row is excluded. -/
def beforeEnd (endTime : Option Nat) (t : Nat) : Bool :=
  match endTime with
  | none => false
  | some T => t ≤ T

/-- `get_highest_bid_before_end` (bot.py:193-202); `endTime` is the
`end_time_utc` column of the joined `auctions` row. -/
def get_highest_bid_before_end (auctionId : String) (endTime : Option Nat)
    (bids : List Bid) : Option Bid :=
  selectLeader (bids.filter (fun b => b.auctionId == auctionId && beforeEnd endTime b.bidTime))

/-- The `status` column of `auctions`: `pending | active | ended | canceled`. -/
inductive Status where
  | pending
  | active
  | ended
  | canceled
  deriving DecidableEq, Repr

/-- A row of the `auctions` table (`init_db`, bot.py:82-92). -/
structure Auction where
  auctionId : String
  messageId : Option String
  channelId : Option String
  endTime : Option Nat
  status : Status
  deriving DecidableEq, Repr

/-- `get_auction` (bot.py:157-158); `auction_id` is UNIQUE, so the first
matching row is the row. -/
def get_auction (auctionId : String) (db : List Auction) : Option Auction :=
  db.find? (fun a => a.auctionId == auctionId)

/-- `upsert_pending_auction` (bot.py:161-173): insert as `pending` when
absent; when present, update `end_time_utc` only if it is unset (Python
`if not existing["end_time_utc"]`), keep `status` as is. -/
def upsert_pending_auction (auctionId messageId channelId : String) (endTime : Nat)
    (db : List Auction) : List Auction :=
  match get_auction auctionId db with
  | none => db ++ [⟨auctionId, some messageId, some channelId, some endTime, Status.pending⟩]
  | some existing =>
    if existing.endTime = none then
      db.map (fun a => if a.auctionId == auctionId then { a with endTime := some endTime } else a)
    else db

/-- `set_auction_active` (bot.py:176-177): an unconditional
`UPDATE auctions SET status = 'active'`. -/
def set_auction_active (auctionId : String) (db : List Auction) : List Auction :=
  db.map (fun a => if a.auctionId == auctionId then { a with status := Status.active } else a)

/-- `set_auction_ended` (bot.py:180-181); defined in the source, never called. -/
def set_auction_ended (auctionId : String) (db : List Auction) : List Auction :=
  db.map (fun a => if a.auctionId == auctionId then { a with status := Status.ended } else a)

/-- Python's thousands-separated rendering `f"{n:,}"` of a natural
number: a comma before every later group of three digits. -/
def natComma (n : Nat) : String :=
  ⟨(((toString n).data.reverse.enum.map
      (fun p => if p.1 ≠ 0 ∧ p.1 % 3 = 0 then [',', p.2] else [p.2])).flatten).reverse⟩

/-- Python's `f"{n:,}"` for a (possibly negative) integer. -/
def intComma (n : Int) : String :=
  if n < 0 then "-" ++ natComma n.natAbs else natComma n.toNat

/-- The reply of `confirm_bid` for an unknown auction (bot.py:227). -/
def unregistered_msg (auctionId : String) : String :=
  "⚠️ Auction `" ++ auctionId ++ "` is not registered. Use `/track_auction " ++
    auctionId ++ "` to activate."

/-- The rejection reply of `confirm_bid` (bot.py:238). -/
def bid_too_low_msg (currentAmount : Int) : String :=
  "⚠️ Bid must be higher than the current bid (" ++ intComma currentAmount ++ ")."

/-- The outbid DM (bot.py:256-258). -/
def outbid_dm (auctionId : String) (amount : Int) (bidderName : String) : String :=
  "You’ve been outbid in auction `" ++ auctionId ++ "`.\nNew high bid: " ++
    intComma amount ++ " by " ++ bidderName ++ "."

/-- The acknowledgement reply of `confirm_bid` (bot.py:266 and 270). -/
def confirmed_msg (bidderName : String) (amount : Int) (auctionId : String) : String :=
  "✅ " ++ bidderName ++ " confirmed at " ++ intComma amount ++ " for `" ++ auctionId ++ "`."

/-- The detection prompt of `on_message` (bot.py:502-505). -/
def detect_prompt_msg (messageId endTime : Nat) : String :=
  "🛎 Potential auction detected for message `" ++ toString messageId ++ "` (ends <t:" ++
    toString endTime ++ ":R>). Confirm with `/track_auction " ++ toString messageId ++ "`."

/-- The acknowledgement of `/track_auction` (bot.py:391-394). -/
def track_ack_msg (messageId endTime : Nat) : String :=
  "✅ Auction registered & activated.\n• Auction ID: `" ++ toString messageId ++
    "`\n• Ends: <t:" ++ toString endTime ++ ":F> (<t:" ++ toString endTime ++ ":R>)"

/-- The three callbacks handed to `scheduler.add_job`. -/
inductive AlertKind where
  | halfway
  | oneHour
  | reminder
  deriving DecidableEq, Repr

/-- An APScheduler date job added with
`scheduler.add_job(fn, "date", run_date=..., args=[channel_id, message_id])`. -/
structure Job where
  kind : AlertKind
  channelId : Nat
  messageId : Nat
  runDate : Nat
  deriving DecidableEq, Repr

/-- The program state touched by the modelled paths: the two SQLite
tables, the process-wide maps `current_auctions`, `outbid_watchers` and
`scheduled_messages`, the scheduler's job queue, and the observable
output (channel/interaction replies, DM attempts and deliveries). -/
structure BotState where
  auctions : List Auction
  bids : List Bid
  watchers : List (String × Nat)
  currentAuctions : List (String × Nat × Int)
  scheduledMessages : List Nat
  jobs : List Job
  dmAttempts : List (Nat × String)
  dmDelivered : List (Nat × String)
  msgs : List String
  deriving DecidableEq, Repr

/-- The empty start state: fresh database, empty maps, no jobs. -/
def initState : BotState :=
  ⟨[], [], [], [], [], [], [], [], []⟩

/-- One invocation of `confirm_bid`: the bidder's id and display name,
the offered amount, the wall-clock instant used by `record_bid`, and
whether a DM to the previous leader would be delivered (`dmOk = false`
models `discord.Forbidden`, which `confirm_bid` catches and swallows). -/
structure Req where
  bidderId : Nat
  bidderName : String
  amount : Int
  time : Nat
  dmOk : Bool
  deriving DecidableEq, Repr

/-- The accepting tail of `confirm_bid` (bot.py:245-270): `record_bid`,
the `current_auctions` snapshot update, the outbid-watcher DM (the watch
entry is deleted whether or not the DM was deliverable), then the
acknowledgement. -/
def confirm_bid_accept (auctionId : String) (r : Req) (prev : Option Bid)
    (s : BotState) : BotState :=
  let s1 := { s with
    bids := s.bids ++ [(⟨auctionId, r.bidderId, r.amount, r.time⟩ : Bid)],
    currentAuctions := (auctionId, r.bidderId, r.amount) ::
      s.currentAuctions.filter (fun p => !(p.1 == auctionId)) }
  let s2 :=
    match prev with
    | some c =>
      if s1.watchers.contains (auctionId, c.userId) then
        { s1 with
          dmAttempts := s1.dmAttempts ++
            [(c.userId, outbid_dm auctionId r.amount r.bidderName)],
          dmDelivered := s1.dmDelivered ++
            (if r.dmOk then [(c.userId, outbid_dm auctionId r.amount r.bidderName)] else []),
          watchers := s1.watchers.filter (fun w => !(w == (auctionId, c.userId))) }
      else s1
    | none => s1
  { s2 with msgs := s2.msgs ++ [confirmed_msg r.bidderName r.amount auctionId] }

/-- `confirm_bid` (bot.py:215-270) for one auction id.  The early
returns (unknown auction, bid too low) leave every table and map
unchanged and only emit a reply. -/
def confirm_bid (auctionId : String) (r : Req) (s : BotState) : BotState :=
  match get_auction auctionId s.auctions with
  | none => { s with msgs := s.msgs ++ [unregistered_msg auctionId] }
  | some _ =>
    match get_current_highest_now auctionId s.bids with
    | some c =>
      if r.amount ≤ c.amount then
        { s with msgs := s.msgs ++ [bid_too_low_msg c.amount] }
      else
        confirm_bid_accept auctionId r (some c) s
    | none => confirm_bid_accept auctionId r none s

/-- `/notify_outbid` (bot.py:277-285):
`outbid_watchers[auction_id][user_id] = True`, an idempotent set add. -/
def notify_outbid (auctionId : String) (userId : Nat) (s : BotState) : BotState :=
  if s.watchers.contains (auctionId, userId) then s
  else { s with watchers := s.watchers ++ [(auctionId, userId)] }

/-- A sequence of `confirm_bid` invocations on one auction, in call
order. -/
def runConfirms (auctionId : String) (reqs : List Req) (s : BotState) : BotState :=
  reqs.foldl (fun st r => confirm_bid auctionId r st) s

/-- The alert-scheduling block shared by `on_message` (bot.py:507-520)
and `track_auction` (bot.py:378-389): when `end_time > now + 1h`, add
the message id to the `scheduled_messages` set and add a halfway job at
`now + (end_time - now) / 2` plus a one-hour job at `end_time - 1h`.
Neither caller cancels previously added jobs. -/
def schedule_alerts (channelId messageId now endTime : Nat) (s : BotState) : BotState :=
  if now + 3600 < endTime then
    { s with
      scheduledMessages :=
        if s.scheduledMessages.contains messageId then s.scheduledMessages
        else s.scheduledMessages ++ [messageId],
      jobs := s.jobs ++
        [⟨AlertKind.halfway, channelId, messageId, now + (endTime - now) / 2⟩,
         ⟨AlertKind.oneHour, channelId, messageId, endTime - 3600⟩] }
  else s

/-- The auction-detection path of `on_message` (bot.py:474-520), for a
human message in an auction channel whose `<t:UNIX>` timestamp parsed to
`endTime` (`none` when the regex does not match).  The code returns
early when `end_time <= now + 1h`; `schedule_alerts` checks the same
condition, negated. -/
def on_message_detect (channelId messageId : Nat) (endTime : Option Nat) (now : Nat)
    (s : BotState) : BotState :=
  if s.scheduledMessages.contains messageId then s
  else
    match endTime with
    | none => s
    | some endT =>
      let s1 := { s with
        auctions := upsert_pending_auction (toString messageId) (toString messageId)
          (toString channelId) endT s.auctions,
        msgs := s.msgs ++ [detect_prompt_msg messageId endT] }
      schedule_alerts channelId messageId now endT s1

/-- `/track_auction` (bot.py:340-396), after the message was found in an
auction channel and its `<t:UNIX>` timestamp parsed to `endTime`: upsert
as pending, unconditionally set status `active`, schedule alerts (with
no cancellation of previously added jobs), then acknowledge. -/
def track_auction (channelId messageId : Nat) (endTime : Nat) (now : Nat)
    (s : BotState) : BotState :=
  let s1 := { s with
    auctions := upsert_pending_auction (toString messageId) (toString messageId)
      (toString channelId) endTime s.auctions }
  let s2 := { s1 with auctions := set_auction_active (toString messageId) s1.auctions }
  let s3 := schedule_alerts channelId messageId now endTime s2
  { s3 with msgs := s3.msgs ++ [track_ack_msg messageId endTime] }

/-- `str.replace("upx", "")`: non-overlapping, left-to-right removal of
the three-character pattern. -/
def removeUpx : List Char → List Char
  | 'u' :: 'p' :: 'x' :: rest => removeUpx rest
  | c :: rest => c :: removeUpx rest
  | [] => []

/-- `re.search(r"(\d+)(k)?", text)`: the leftmost maximal digit run
together with the character immediately after it. -/
def firstDigitRun : List Char → Option (List Char × Option Char)
  | [] => none
  | c :: cs =>
    if c.isDigit then
      some ((c :: cs).takeWhile Char.isDigit, ((c :: cs).dropWhile Char.isDigit).head?)
    else firstDigitRun cs

/-- `int(match.group(1))`: the decimal value of a digit run. -/
def digitsToNat (l : List Char) : Nat :=
  l.foldl (fun acc c => acc * 10 + (c.toNat - 48)) 0

/-- `parse_amount` (bot.py:142-154): lower-case the text, strip `","`,
`"upx"`, `"$"` in that order, take the first digit run, and multiply by
1000 exactly when a `k` immediately follows it; `none` models the
raised `ValueError`. -/
def parse_amount (text : String) : Option Nat :=
  let t0 := text.data.map Char.toLower
  let t1 := t0.filter (fun c => !(c == ','))
  let t2 := removeUpx t1
  let t3 := t2.filter (fun c => !(c == '$'))
  match firstDigitRun t3 with
  | none => none
  | some (run, next) =>
    let amount := digitsToNat run
    some (if next == some 'k' then amount * 1000 else amount)

/-- Substring test on raw character lists (pattern, text), used to state
what a reply message reports. -/
def containsSub (pat : List Char) : List Char → Bool
  | [] => pat.isPrefixOf []
  | c :: cs => pat.isPrefixOf (c :: cs) || containsSub pat cs

/-- The forward-only status order of the spec (§3): `pending → active →
ended`, with `canceled` reachable from `pending` or `active`.  Modelled
from the spec in order to state status regression. -/
def statusForward : Status → Status → Bool
  | Status.pending, _ => true
  | Status.active, Status.pending => false
  | Status.active, _ => true
  | Status.ended, t => t == Status.ended
  | Status.canceled, t => t == Status.canceled

theorem selectLeader_mem : ∀ {l : List Bid} {w : Bid}, selectLeader l = some w → w ∈ l := by
  intro l
  induction l with
  | nil => intro w h; simp [selectLeader] at h
  | cons b rest ih =>
    intro w h
    cases hrest : selectLeader rest with
    | none =>
      simp only [selectLeader, hrest, Option.some.injEq] at h
      simp [h]
    | some c =>
      simp only [selectLeader, hrest] at h
      by_cases hb : bidBeats c b = true
      · rw [if_pos hb] at h
        have := ih (hrest.trans h)
        simp [this]
      · rw [if_neg hb] at h
        simp at h
        simp [h]

theorem selectLeader_eq_none : ∀ {l : List Bid}, selectLeader l = none ↔ l = [] := by
  intro l
  cases l with
  | nil => simp [selectLeader]
  | cons b rest =>
    cases hrest : selectLeader rest with
    | none => simp [selectLeader, hrest]
    | some c =>
      simp only [selectLeader, hrest]
      by_cases hb : bidBeats c b = true <;> simp [hb]

theorem bidBeats_false {b c : Bid} (h : bidBeats b c = false) :
    b.amount ≤ c.amount ∧ (b.amount = c.amount → c.bidTime ≤ b.bidTime) := by
  simp only [bidBeats, Bool.or_eq_false_iff, Bool.and_eq_false_iff] at h
  obtain ⟨h1, h2⟩ := h
  simp only [decide_eq_false_iff_not, not_lt] at h1
  constructor
  · exact h1
  · intro heq
    rcases h2 with h2 | h2
    · simp [heq] at h2
    · simpa using h2

theorem selectLeader_best : ∀ {l : List Bid} {w : Bid}, selectLeader l = some w →
    ∀ b ∈ l, b.amount ≤ w.amount ∧ (b.amount = w.amount → w.bidTime ≤ b.bidTime) := by
  intro l
  induction l with
  | nil => intro w h; simp [selectLeader] at h
  | cons a rest ih =>
    intro w h b hb
    cases hrest : selectLeader rest with
    | none =>
      simp only [selectLeader, hrest, Option.some.injEq] at h
      subst h
      have : rest = [] := selectLeader_eq_none.mp hrest
      subst this
      simp at hb
      subst hb
      exact ⟨le_refl _, fun _ => le_refl _⟩
    | some c =>
      simp only [selectLeader, hrest] at h
      rcases List.mem_cons.mp hb with hba | hbr
      · subst hba
        by_cases hbeat : bidBeats c b = true
        · rw [if_pos hbeat] at h
          simp at h
          subst h
          simp only [bidBeats, Bool.or_eq_true, Bool.and_eq_true, decide_eq_true_eq,
            beq_iff_eq] at hbeat
          rcases hbeat with hlt | ⟨heq, hlt⟩
          · exact ⟨le_of_lt hlt, fun hh => absurd hh (ne_of_lt hlt)⟩
          · exact ⟨le_of_eq heq.symm, fun _ => le_of_lt hlt⟩
        · rw [if_neg hbeat] at h
          simp at h
          subst h
          exact ⟨le_refl _, fun _ => le_refl _⟩
      · have hc := ih hrest b hbr
        by_cases hbeat : bidBeats c a = true
        · rw [if_pos hbeat] at h
          simp at h
          subst h
          exact hc
        · rw [if_neg hbeat] at h
          simp at h
          subst h
          have hca := bidBeats_false (Bool.eq_false_iff.mpr hbeat)
          constructor
          · exact le_trans hc.1 hca.1
          · intro heq
            have h1 : c.amount = a.amount := le_antisymm hca.1 (heq ▸ hc.1)
            exact le_trans (hca.2 h1) (hc.2 (heq.trans h1.symm))

theorem uint32_le_iff (a b : UInt32) : (a ≤ b) ↔ a.toNat ≤ b.toNat := Iff.rfl

theorem isDigit_toLower (c : Char) : (Char.toLower c).isDigit = c.isDigit := by
  unfold Char.toLower
  show (if c.toNat ≥ 65 ∧ c.toNat ≤ 90 then Char.ofNat (c.toNat + 32) else c).isDigit = c.isDigit
  split
  next h =>
    obtain ⟨h1, h2⟩ := h
    have hvalid : (c.toNat + 32).isValidChar := Or.inl (by omega)
    have hval : (Char.ofNat (c.toNat + 32)).toNat = c.toNat + 32 := by
      rw [Char.ofNat, dif_pos hvalid]
      simp [Char.ofNatAux, Char.toNat, UInt32.toNat]
    have h57 : ((57 : UInt32)).toNat = 57 := by decide
    have hlhs : (Char.ofNat (c.toNat + 32)).isDigit = false := by
      simp only [Char.isDigit]
      rw [Bool.and_eq_false_iff]
      right
      rw [decide_eq_false_iff_not]
      intro hc
      rw [uint32_le_iff, h57] at hc
      have hv : (Char.ofNat (c.toNat + 32)).val.toNat = c.toNat + 32 := hval
      omega
    have hrhs : c.isDigit = false := by
      simp only [Char.isDigit]
      rw [Bool.and_eq_false_iff]
      right
      rw [decide_eq_false_iff_not]
      intro hc
      rw [uint32_le_iff, h57] at hc
      have hv : c.val.toNat = c.toNat := rfl
      omega
    rw [hlhs, hrhs]
  next => rfl

theorem removeUpx_subset : ∀ {l : List Char} {c : Char}, c ∈ removeUpx l → c ∈ l := by
  intro l
  induction l using removeUpx.induct with
  | case1 rest ih =>
    intro c hc
    rw [removeUpx] at hc
    simp [ih hc]
  | case2 a rest hne ih =>
    intro c hc
    have he : removeUpx (a :: rest) = a :: removeUpx rest := by
      rw [removeUpx]
      exact hne
    rw [he] at hc
    rcases List.mem_cons.mp hc with h | h
    · simp [h]
    · simp [ih h]
  | case3 =>
    intro c hc
    simp [removeUpx] at hc

theorem firstDigitRun_none : ∀ {l : List Char}, (∀ c ∈ l, c.isDigit = false) →
    firstDigitRun l = none := by
  intro l
  induction l with
  | nil => intro _; rfl
  | cons c cs ih =>
    intro h
    rw [firstDigitRun]
    rw [h c (by simp)]
    simp only [Bool.false_eq_true, if_false]
    exact ih (fun x hx => h x (by simp [hx]))

theorem containsSub_here {p t : List Char} (h : p.isPrefixOf t = true) :
    containsSub p t = true := by
  cases t with
  | nil => simpa [containsSub] using h
  | cons c cs => simp [containsSub, h]

theorem containsSub_extend (p : List Char) : ∀ (x t : List Char),
    containsSub p t = true → containsSub p (x ++ t) = true := by
  intro x
  induction x with
  | nil => intro t h; simpa using h
  | cons c cs ih =>
    intro t h
    have hrec := ih t h
    rw [List.cons_append, containsSub, hrec]
    simp

theorem containsSub_mid (p x y : List Char) : containsSub p (x ++ (p ++ y)) = true := by
  apply containsSub_extend
  apply containsSub_here
  exact List.isPrefixOf_iff_prefix.mpr (List.prefix_append p y)

theorem get_auction_map (auctionId : String) (db : List Auction)
    (f : Auction → Auction) (hf : ∀ a, (f a).auctionId = a.auctionId) :
    get_auction auctionId (db.map f) = (get_auction auctionId db).map f := by
  induction db with
  | nil => rfl
  | cons a rest ih =>
    unfold get_auction at ih ⊢
    rw [List.map_cons]
    by_cases h : (a.auctionId == auctionId) = true
    · rw [List.find?_cons_of_pos (p := fun x : Auction => x.auctionId == auctionId) _
        (show ((f a).auctionId == auctionId) = true by rw [hf]; exact h),
        List.find?_cons_of_pos (p := fun x : Auction => x.auctionId == auctionId) _ h]
      rfl
    · rw [List.find?_cons_of_neg (p := fun x : Auction => x.auctionId == auctionId) _
        (show ¬((f a).auctionId == auctionId) = true by rw [hf]; exact h),
        List.find?_cons_of_neg (p := fun x : Auction => x.auctionId == auctionId) _ h]
      exact ih

/-- C9: `parse_amount` strips thousands separators and currency/unit
tokens, takes the first digit run and multiplies by 1000 exactly when a
thousand-marker immediately follows it, so `5k` parses to 5000,
`new bid 7,500` to 7500 and `$12` to 12; an input without any digit
yields the `ValueError` (`NoAmountFound`), modelled as `none`. -/
theorem parse_amount_spec :
    parse_amount "5k" = some 5000 ∧
    parse_amount "new bid 7,500" = some 7500 ∧
    parse_amount "$12" = some 12 ∧
    ∀ text : String, (∀ c ∈ text.data, c.isDigit = false) → parse_amount text = none := by
  refine ⟨by decide, by decide, by decide, ?_⟩
  intro text h
  have h0 : ∀ c ∈ text.data.map Char.toLower, c.isDigit = false := by
    intro c hc
    obtain ⟨a, ha, rfl⟩ := List.mem_map.mp hc
    rw [isDigit_toLower]
    exact h a ha
  have h1 : ∀ c ∈ (text.data.map Char.toLower).filter (fun c => !(c == ',')),
      c.isDigit = false :=
    fun c hc => h0 c (List.mem_filter.mp hc).1
  have h2 : ∀ c ∈ removeUpx ((text.data.map Char.toLower).filter (fun c => !(c == ','))),
      c.isDigit = false :=
    fun c hc => h1 c (removeUpx_subset hc)
  have h3 : ∀ c ∈ (removeUpx ((text.data.map Char.toLower).filter
      (fun c => !(c == ',')))).filter (fun c => !(c == '$')), c.isDigit = false :=
    fun c hc => h2 c (List.mem_filter.mp hc).1
  have h4 := firstDigitRun_none h3
  simp only [parse_amount, h4]

/-- C9 witness: a concrete digit-free input. -/
theorem parse_amount_spec_witness : parse_amount "no digits at all" = none :=
  parse_amount_spec.2.2.2 "no digits at all" (by decide)

/-- C10: when the joined auction row has `end_time_utc` NULL, the SQL
comparison `datetime(b.bid_time_utc) <= datetime(NULL)` holds for no
row, so `get_highest_bid_before_end` reports no valid bid no matter
which bids are recorded for the auction. -/
theorem get_highest_before_end_none_of_unset (auctionId : String) (bids : List Bid) :
    get_highest_bid_before_end auctionId none bids = none := by
  unfold get_highest_bid_before_end
  rw [selectLeader_eq_none]
  rw [List.filter_eq_nil_iff]
  intro b _
  simp [beforeEnd]

/-- C2: with end time `T`, `get_highest_bid_before_end` (the
`final_leader` query) returns a bid of the auction with `bid_time ≤ T`
that has the maximum amount among those bids, earliest among equal
amounts; it returns none exactly when no bid of the auction has
`bid_time ≤ T`; and bids recorded after `T` never change the result. -/
theorem get_highest_before_end_correct (auctionId : String) (T : Nat) (bids : List Bid) :
    (∀ w, get_highest_bid_before_end auctionId (some T) bids = some w →
      w ∈ bids ∧ w.auctionId = auctionId ∧ w.bidTime ≤ T ∧
      ∀ b ∈ bids, b.auctionId = auctionId → b.bidTime ≤ T →
        b.amount ≤ w.amount ∧ (b.amount = w.amount → w.bidTime ≤ b.bidTime)) ∧
    (get_highest_bid_before_end auctionId (some T) bids = none ↔
      ∀ b ∈ bids, b.auctionId = auctionId → T < b.bidTime) ∧
    (∀ late : List Bid, (∀ b ∈ late, T < b.bidTime) →
      get_highest_bid_before_end auctionId (some T) (bids ++ late) =
        get_highest_bid_before_end auctionId (some T) bids) := by
  refine ⟨?_, ?_, ?_⟩
  · intro w hw
    have hmem := selectLeader_mem hw
    have hbest := selectLeader_best hw
    rw [List.mem_filter] at hmem
    obtain ⟨hmem, hcond⟩ := hmem
    simp only [Bool.and_eq_true, beq_iff_eq, beforeEnd, decide_eq_true_eq] at hcond
    refine ⟨hmem, hcond.1, hcond.2, ?_⟩
    intro b hb hbid hbt
    exact hbest b (List.mem_filter.mpr ⟨hb, by simp [hbid, beforeEnd, hbt]⟩)
  · unfold get_highest_bid_before_end
    rw [selectLeader_eq_none, List.filter_eq_nil_iff]
    constructor
    · intro h b hb hbid
      have := h b hb
      simp [hbid, beforeEnd] at this
      omega
    · intro h b hb
      simp only [Bool.and_eq_true, beq_iff_eq, beforeEnd, decide_eq_true_eq, not_and]
      intro hbid
      have := h b hb hbid
      omega
  · intro late hlate
    unfold get_highest_bid_before_end
    rw [List.filter_append]
    have hnil : late.filter
        (fun b => b.auctionId == auctionId && beforeEnd (some T) b.bidTime) = [] := by
      rw [List.filter_eq_nil_iff]
      intro b hb
      have := hlate b hb
      simp only [Bool.and_eq_true, beq_iff_eq, beforeEnd, decide_eq_true_eq, not_and]
      intro _
      omega
    rw [hnil, List.append_nil]

/-- C2 witness: a bid recorded after the end time (here at instant 20,
end 10) does not change the final leader. -/
theorem get_highest_before_end_correct_witness :
    get_highest_bid_before_end "A" (some 10)
        ([⟨"A", 1, 100, 3⟩, ⟨"A", 2, 50, 4⟩] ++ [⟨"A", 3, 200, 20⟩]) =
      get_highest_bid_before_end "A" (some 10) [⟨"A", 1, 100, 3⟩, ⟨"A", 2, 50, 4⟩] :=
  (get_highest_before_end_correct "A" 10 [⟨"A", 1, 100, 3⟩, ⟨"A", 2, 50, 4⟩]).2.2
    [⟨"A", 3, 200, 20⟩] (by decide)

/-- C1: the current leader computed by `get_current_highest_now` over
any recorded ledger is a bid of the auction attaining the maximum
amount, earliest among equal amounts — so after each accepted
`confirm_bid` the leader is the running maximum — and a `confirm_bid`
whose amount is at most the current leading amount leaves the bid table
unchanged: the rejected bid is never appended. -/
theorem confirm_bid_leader_and_reject :
    (∀ (auctionId : String) (bids : List Bid) (w : Bid),
      get_current_highest_now auctionId bids = some w →
      w ∈ bids ∧ w.auctionId = auctionId ∧
      ∀ b ∈ bids, b.auctionId = auctionId →
        b.amount ≤ w.amount ∧ (b.amount = w.amount → w.bidTime ≤ b.bidTime)) ∧
    (∀ (auctionId : String) (r : Req) (s : BotState) (c : Bid),
      get_current_highest_now auctionId s.bids = some c →
      r.amount ≤ c.amount →
      (confirm_bid auctionId r s).bids = s.bids) := by
  constructor
  · intro auctionId bids w hw
    have hmem := selectLeader_mem hw
    have hbest := selectLeader_best hw
    rw [List.mem_filter] at hmem
    obtain ⟨hmem, hcond⟩ := hmem
    rw [beq_iff_eq] at hcond
    refine ⟨hmem, hcond, ?_⟩
    intro b hb hbid
    exact hbest b (List.mem_filter.mpr ⟨hb, by simp [hbid]⟩)
  · intro auctionId r s c hcur hle
    cases hga : get_auction auctionId s.auctions with
    | none =>
      simp only [confirm_bid, hga]
    | some a =>
      simp only [confirm_bid, hga, hcur, if_pos hle]

/-- C1 witness: a 50 bid against a 100 leader is rejected and the bid
table is unchanged. -/
theorem confirm_bid_leader_and_reject_witness :
    (confirm_bid "A" ⟨2, "u2", 50, 6, true⟩
        { initState with
          auctions := [⟨"A", none, none, some 99, Status.active⟩],
          bids := [⟨"A", 1, 100, 5⟩] }).bids = [⟨"A", 1, 100, 5⟩] :=
  confirm_bid_leader_and_reject.2 "A" ⟨2, "u2", 50, 6, true⟩
    { initState with
      auctions := [⟨"A", none, none, some 99, Status.active⟩],
      bids := [⟨"A", 1, 100, 5⟩] } ⟨"A", 1, 100, 5⟩ rfl (by decide)

/-- C4 counterexample: rejecting a 50 bid against a 100 leader emits
only `⚠️ Bid must be higher than the current bid (100).` — the reply
reports the leading amount but does not contain the rejected amount 50,
so the claim that the rejection reports both amounts is false at this
input. -/
theorem bid_too_low_reply_lacks_rejected_amount :
    (confirm_bid "A" ⟨2, "u2", 50, 6, true⟩
        { initState with
          auctions := [⟨"A", none, none, some 99, Status.active⟩],
          bids := [⟨"A", 1, 100, 5⟩] }).msgs = [bid_too_low_msg 100] ∧
    containsSub (intComma 100).data (bid_too_low_msg 100).data = true ∧
    containsSub (intComma 50).data (bid_too_low_msg 100).data = false :=
  ⟨rfl, by decide, by decide⟩

/-- C4 (amended): when the auction is registered, a leader exists and
the offered amount is at most the leading amount, `confirm_bid` only
appends the rejection reply — bid table, auction table, watcher map,
snapshot map, scheduler state and DMs are all untouched — and the reply
reports the current leading amount (but not the rejected amount, as the
counterexample shows). -/
theorem confirm_bid_too_low_no_mutation
    (auctionId : String) (r : Req) (s : BotState) (c : Bid)
    (hreg : (get_auction auctionId s.auctions).isSome = true)
    (hcur : get_current_highest_now auctionId s.bids = some c)
    (hle : r.amount ≤ c.amount) :
    confirm_bid auctionId r s = { s with msgs := s.msgs ++ [bid_too_low_msg c.amount] } ∧
    containsSub (intComma c.amount).data (bid_too_low_msg c.amount).data = true := by
  constructor
  · cases hga : get_auction auctionId s.auctions with
    | none => rw [hga] at hreg; simp at hreg
    | some a => simp only [confirm_bid, hga, hcur, if_pos hle]
  · have hdata : (bid_too_low_msg c.amount).data =
        "⚠️ Bid must be higher than the current bid (".data ++
          ((intComma c.amount).data ++ ").".data) := by
      unfold bid_too_low_msg
      rw [String.data_append, String.data_append, List.append_assoc]
    rw [hdata]
    exact containsSub_mid _ _ _

/-- C4 witness: the amended statement at the state of the
counterexample. -/
theorem confirm_bid_too_low_no_mutation_witness :
    confirm_bid "A" ⟨2, "u2", 50, 6, true⟩
        { initState with
          auctions := [⟨"A", none, none, some 99, Status.active⟩],
          bids := [⟨"A", 1, 100, 5⟩] } =
      { initState with
        auctions := [⟨"A", none, none, some 99, Status.active⟩],
        bids := [⟨"A", 1, 100, 5⟩],
        msgs := [bid_too_low_msg 100] } ∧
    containsSub (intComma 100).data (bid_too_low_msg 100).data = true :=
  confirm_bid_too_low_no_mutation "A" ⟨2, "u2", 50, 6, true⟩
    { initState with
      auctions := [⟨"A", none, none, some 99, Status.active⟩],
      bids := [⟨"A", 1, 100, 5⟩] } ⟨"A", 1, 100, 5⟩ rfl rfl (by decide)

/-- C6 counterexample: user 1 watches auction `A`, bids 100, and is
outbid by a 200 bid whose DM raises `discord.Forbidden`
(`dmOk = false`): the watch entry is deleted although no notification
was delivered, so the watch is not removed exactly when the user is
outbid and successfully notified. -/
theorem watch_removed_without_delivery :
    (confirm_bid "A" ⟨2, "u2", 200, 6, false⟩
      (confirm_bid "A" ⟨1, "u1", 100, 5, true⟩
        (notify_outbid "A" 1
          { initState with
            auctions := [⟨"A", none, none, some 99, Status.active⟩] }))).watchers = [] ∧
    (confirm_bid "A" ⟨2, "u2", 200, 6, false⟩
      (confirm_bid "A" ⟨1, "u1", 100, 5, true⟩
        (notify_outbid "A" 1
          { initState with
            auctions := [⟨"A", none, none, some 99, Status.active⟩] }))).dmDelivered = [] ∧
    (confirm_bid "A" ⟨2, "u2", 200, 6, false⟩
      (confirm_bid "A" ⟨1, "u1", 100, 5, true⟩
        (notify_outbid "A" 1
          { initState with
            auctions := [⟨"A", none, none, some 99, Status.active⟩] }))).dmAttempts =
      [(1, outbid_dm "A" 200 "u2")] :=
  ⟨rfl, rfl, rfl⟩

/-- Once a watch entry is absent, one `confirm_bid` call on that
auction records no DM attempt for that user and never restores the
watch: attempts are only recorded for the previous leader when the
watch entry is present, and `confirm_bid` never adds watch entries. -/
theorem confirm_bid_watch_absent (auctionId : String) (u : Nat) (r : Req) (s : BotState)
    (hw : (auctionId, u) ∉ s.watchers) :
    (confirm_bid auctionId r s).dmAttempts.filter (fun p => p.1 == u) =
      s.dmAttempts.filter (fun p => p.1 == u) ∧
    (auctionId, u) ∉ (confirm_bid auctionId r s).watchers := by
  cases hga : get_auction auctionId s.auctions with
  | none =>
    simp only [confirm_bid, hga]
    exact ⟨by simp, hw⟩
  | some a =>
    cases hcur : get_current_highest_now auctionId s.bids with
    | none =>
      simp only [confirm_bid, hga, hcur, confirm_bid_accept]
      exact ⟨by simp, hw⟩
    | some c =>
      by_cases hle : r.amount ≤ c.amount
      · simp only [confirm_bid, hga, hcur, if_pos hle]
        exact ⟨by simp, hw⟩
      · simp only [confirm_bid, hga, hcur, if_neg hle, confirm_bid_accept]
        by_cases hcw : s.watchers.contains (auctionId, c.userId) = true
        · rw [if_pos hcw]
          have hmemc : (auctionId, c.userId) ∈ s.watchers := by simpa using hcw
          have hne : (c.userId == u) = false := by
            rw [beq_eq_false_iff_ne]
            intro he
            exact hw (he ▸ hmemc)
          constructor
          · rw [List.filter_append]
            simp [hne]
          · intro hmem
            exact hw (List.mem_filter.mp hmem).1
        · rw [if_neg hcw]
          exact ⟨by simp, hw⟩

/-- C6 (amended): for every watch registration, the watch yields at
most one outbid notification.  First conjunct: whenever the watched
user is the current leader and an accepted bid outbids them, exactly
one DM attempt is recorded — delivered only when the DM is deliverable,
while the watch entry is deleted either way.  Second conjunct: once the
watch entry is absent, every further sequence of `confirm_bid` calls on
that auction — including ones in which the same user leads again and is
outbid again without re-watching — records no further attempt for that
user and never restores the watch. -/
theorem watch_consumed_once :
    (∀ (auctionId : String) (r : Req) (s : BotState) (c : Bid),
      (get_auction auctionId s.auctions).isSome = true →
      get_current_highest_now auctionId s.bids = some c →
      c.amount < r.amount →
      s.watchers.contains (auctionId, c.userId) = true →
      (confirm_bid auctionId r s).dmAttempts =
        s.dmAttempts ++ [(c.userId, outbid_dm auctionId r.amount r.bidderName)] ∧
      (confirm_bid auctionId r s).dmDelivered =
        s.dmDelivered ++
          (if r.dmOk then [(c.userId, outbid_dm auctionId r.amount r.bidderName)] else []) ∧
      (auctionId, c.userId) ∉ (confirm_bid auctionId r s).watchers) ∧
    (∀ (auctionId : String) (u : Nat) (reqs : List Req) (s : BotState),
      (auctionId, u) ∉ s.watchers →
      (runConfirms auctionId reqs s).dmAttempts.filter (fun p => p.1 == u) =
        s.dmAttempts.filter (fun p => p.1 == u) ∧
      (auctionId, u) ∉ (runConfirms auctionId reqs s).watchers) := by
  constructor
  · intro auctionId r s c hreg hcur hgt hcw
    have hle : ¬ r.amount ≤ c.amount := not_le.mpr hgt
    cases hga : get_auction auctionId s.auctions with
    | none => rw [hga] at hreg; simp at hreg
    | some a =>
      simp only [confirm_bid, hga, hcur, if_neg hle, confirm_bid_accept]
      rw [if_pos hcw]
      refine ⟨rfl, rfl, ?_⟩
      intro hmem
      have hpr := (List.mem_filter.mp hmem).2
      simp at hpr
  · intro auctionId u reqs
    induction reqs with
    | nil => intro s hw; exact ⟨rfl, hw⟩
    | cons r rs ih =>
      intro s hw
      have hstep := confirm_bid_watch_absent auctionId u r s hw
      have hrest := ih (confirm_bid auctionId r s) hstep.2
      refine ⟨?_, hrest.2⟩
      rw [show runConfirms auctionId (r :: rs) s =
        runConfirms auctionId rs (confirm_bid auctionId r s) from rfl]
      rw [hrest.1, hstep.1]

/-- C6 witness: user 1 watches `A` and bids 100; u2 bids 200, so the
theorem gives exactly one DM attempt for user 1 and deletes the watch;
then user 1 re-bids 300 and is outbid again at 400 without re-watching,
and the theorem gives no second attempt and the watch stays gone. -/
theorem watch_consumed_once_witness :
    (confirm_bid "A" ⟨2, "u2", 200, 6, true⟩
      (confirm_bid "A" ⟨1, "u1", 100, 5, true⟩
        (notify_outbid "A" 1
          { initState with
            auctions := [⟨"A", none, none, some 99, Status.active⟩] }))).dmAttempts =
      [(1, outbid_dm "A" 200 "u2")] ∧
    ("A", 1) ∉ (confirm_bid "A" ⟨2, "u2", 200, 6, true⟩
      (confirm_bid "A" ⟨1, "u1", 100, 5, true⟩
        (notify_outbid "A" 1
          { initState with
            auctions := [⟨"A", none, none, some 99, Status.active⟩] }))).watchers ∧
    (runConfirms "A" [⟨1, "u1", 300, 7, true⟩, ⟨2, "u2", 400, 8, true⟩]
      (confirm_bid "A" ⟨2, "u2", 200, 6, true⟩
        (confirm_bid "A" ⟨1, "u1", 100, 5, true⟩
          (notify_outbid "A" 1
            { initState with
              auctions := [⟨"A", none, none, some 99, Status.active⟩] })))).dmAttempts.filter
      (fun p => p.1 == 1) = [(1, outbid_dm "A" 200 "u2")] ∧
    ("A", 1) ∉ (runConfirms "A" [⟨1, "u1", 300, 7, true⟩, ⟨2, "u2", 400, 8, true⟩]
      (confirm_bid "A" ⟨2, "u2", 200, 6, true⟩
        (confirm_bid "A" ⟨1, "u1", 100, 5, true⟩
          (notify_outbid "A" 1
            { initState with
              auctions := [⟨"A", none, none, some 99, Status.active⟩] })))).watchers := by
  have h1 := watch_consumed_once.1 "A" ⟨2, "u2", 200, 6, true⟩
    (confirm_bid "A" ⟨1, "u1", 100, 5, true⟩
      (notify_outbid "A" 1
        { initState with auctions := [⟨"A", none, none, some 99, Status.active⟩] }))
    ⟨"A", 1, 100, 5⟩ rfl rfl (by decide) rfl
  have h2 := watch_consumed_once.2 "A" 1 [⟨1, "u1", 300, 7, true⟩, ⟨2, "u2", 400, 8, true⟩]
    (confirm_bid "A" ⟨2, "u2", 200, 6, true⟩
      (confirm_bid "A" ⟨1, "u1", 100, 5, true⟩
        (notify_outbid "A" 1
          { initState with auctions := [⟨"A", none, none, some 99, Status.active⟩] })))
    h1.2.2
  exact ⟨h1.1, h1.2.2, h2.1, h2.2⟩

/-- C5 fails on the code: `on_message` detects an auction ending in two
hours and schedules a halfway and a one-hour job; the confirming
`/track_auction` on the same message schedules both again without any
cancellation (`scheduler.add_job` is called unconditionally, and the
`scheduled_messages` guard only short-circuits `on_message`), so two
halfway and two one-hour jobs are pending for one auction. -/
theorem detect_then_track_duplicates_alerts :
    ((track_auction 10 1 7200 0 (on_message_detect 10 1 (some 7200) 0 initState)).jobs.filter
        (fun j => j.kind == AlertKind.halfway && j.messageId == 1)).length = 2 ∧
    ((track_auction 10 1 7200 0 (on_message_detect 10 1 (some 7200) 0 initState)).jobs.filter
        (fun j => j.kind == AlertKind.oneHour && j.messageId == 1)).length = 2 :=
  ⟨rfl, rfl⟩

/-- C7 counterexample: on an auction whose status is `ended`,
`set_auction_active` (the activation step of `/track_auction`)
unconditionally rewrites the status to `active`, a transition the
forward-only order `pending → active → ended` forbids. -/
theorem set_auction_active_regresses_ended :
    get_auction "A" (set_auction_active "A" [⟨"A", none, none, some 99, Status.ended⟩]) =
      some ⟨"A", none, none, some 99, Status.active⟩ ∧
    statusForward Status.ended Status.active = false :=
  ⟨rfl, rfl⟩

/-- C7 (amended): `upsert_pending_auction` never changes the status of
an existing auction and fills `end_time` only when it was unset, and
neither operation overwrites an `end_time` that is already set; but
`set_auction_active` writes status `active` unconditionally, which is a
forward-only transition only from `pending` or `active` (from `ended`
or `canceled` it regresses, as the counterexample shows). -/
theorem auction_ops_amended (auctionId messageId channelId : String) (endT : Nat)
    (db : List Auction) (a : Auction)
    (ha : get_auction auctionId db = some a) :
    ((get_auction auctionId (upsert_pending_auction auctionId messageId channelId endT db)).map
        Auction.status = some a.status) ∧
    (a.endTime ≠ none →
      (get_auction auctionId (upsert_pending_auction auctionId messageId channelId endT db)).map
        Auction.endTime = some a.endTime) ∧
    (a.endTime = none →
      (get_auction auctionId (upsert_pending_auction auctionId messageId channelId endT db)).map
        Auction.endTime = some (some endT)) ∧
    ((get_auction auctionId (set_auction_active auctionId db)).map Auction.status =
      some Status.active) ∧
    ((get_auction auctionId (set_auction_active auctionId db)).map Auction.endTime =
      some a.endTime) ∧
    ((a.status = Status.pending ∨ a.status = Status.active) →
      statusForward a.status Status.active = true) := by
  have ha2 : List.find? (fun x : Auction => x.auctionId == auctionId) db = some a := ha
  have hpa : (a.auctionId == auctionId) = true :=
    @List.find?_some Auction (fun x : Auction => x.auctionId == auctionId) a db ha2
  have heq : a.auctionId = auctionId := by simpa using hpa
  have hfe : ∀ x : Auction,
      ((if x.auctionId == auctionId then { x with endTime := some endT } else x) :
        Auction).auctionId = x.auctionId := by
    intro x
    by_cases h : (x.auctionId == auctionId) = true <;> simp [h]
  have hfa : ∀ x : Auction,
      ((if x.auctionId == auctionId then { x with status := Status.active } else x) :
        Auction).auctionId = x.auctionId := by
    intro x
    by_cases h : (x.auctionId == auctionId) = true <;> simp [h]
  have hmape := get_auction_map auctionId db
    (fun x => if x.auctionId == auctionId then { x with endTime := some endT } else x) hfe
  have hmapa := get_auction_map auctionId db
    (fun x => if x.auctionId == auctionId then { x with status := Status.active } else x) hfa
  have hact : (get_auction auctionId (set_auction_active auctionId db)).map Auction.status =
        some Status.active ∧
      (get_auction auctionId (set_auction_active auctionId db)).map Auction.endTime =
        some a.endTime := by
    unfold set_auction_active
    rw [hmapa, ha]
    simp [heq]
  by_cases hN : a.endTime = none
  · have hup : upsert_pending_auction auctionId messageId channelId endT db =
        db.map (fun x => if x.auctionId == auctionId then { x with endTime := some endT }
          else x) := by
      simp only [upsert_pending_auction, ha, if_pos hN]
    refine ⟨?_, fun h => absurd hN h, fun _ => ?_, hact.1, hact.2, ?_⟩
    · rw [hup, hmape, ha]
      simp [heq]
    · rw [hup, hmape, ha]
      simp [heq]
    · rintro (h | h) <;> rw [h] <;> rfl
  · have hup : upsert_pending_auction auctionId messageId channelId endT db = db := by
      simp only [upsert_pending_auction, ha, if_neg hN]
    refine ⟨?_, fun _ => ?_, fun h => absurd h hN, hact.1, hact.2, ?_⟩
    · rw [hup, ha]
      rfl
    · rw [hup, ha]
      rfl
    · rintro (h | h) <;> rw [h] <;> rfl

/-- C7 witness: the amended statement for a pending auction with unset
end time. -/
theorem auction_ops_amended_witness :
    ((get_auction "A" (upsert_pending_auction "A" "M" "C" 50
        [⟨"A", some "M", some "C", none, Status.pending⟩])).map Auction.status =
      some Status.pending) ∧
    ((get_auction "A" (upsert_pending_auction "A" "M" "C" 50
        [⟨"A", some "M", some "C", none, Status.pending⟩])).map Auction.endTime =
      some (some 50)) ∧
    ((get_auction "A" (set_auction_active "A"
        [⟨"A", some "M", some "C", none, Status.pending⟩])).map Auction.status =
      some Status.active) ∧
    statusForward Status.pending Status.active = true := by
  have h := auction_ops_amended "A" "M" "C" 50
    [⟨"A", some "M", some "C", none, Status.pending⟩]
    ⟨"A", some "M", some "C", none, Status.pending⟩ rfl
  exact ⟨h.1, h.2.2.1 rfl, h.2.2.2.1, h.2.2.2.2.2 (Or.inl rfl)⟩

/-- C8: for an activation (`/track_auction`) or a registration
(`on_message`) at instant `now` with known end time: when
`end_time > now + 1h` a halfway job is scheduled at
`now + (end_time - now)/2` and a one-hour job at `end_time - 1h`; when
`end_time ≤ now + 1h` (including a past end time) neither is
scheduled. -/
theorem alert_schedule_times (ch mid now endT : Nat) (s : BotState) :
    (now + 3600 < endT →
      (track_auction ch mid endT now s).jobs =
        s.jobs ++ [⟨AlertKind.halfway, ch, mid, now + (endT - now) / 2⟩,
                   ⟨AlertKind.oneHour, ch, mid, endT - 3600⟩]) ∧
    (endT ≤ now + 3600 → (track_auction ch mid endT now s).jobs = s.jobs) ∧
    (s.scheduledMessages.contains mid = false →
      (now + 3600 < endT →
        (on_message_detect ch mid (some endT) now s).jobs =
          s.jobs ++ [⟨AlertKind.halfway, ch, mid, now + (endT - now) / 2⟩,
                     ⟨AlertKind.oneHour, ch, mid, endT - 3600⟩]) ∧
      (endT ≤ now + 3600 → (on_message_detect ch mid (some endT) now s).jobs = s.jobs)) := by
  refine ⟨?_, ?_, ?_⟩
  · intro h
    simp [track_auction, schedule_alerts, h]
  · intro h
    have h2 : ¬ (now + 3600 < endT) := by omega
    simp [track_auction, schedule_alerts, h2]
  · intro hsm
    have hsm2 : ¬ (mid ∈ s.scheduledMessages) := by simpa using hsm
    constructor
    · intro h
      simp [on_message_detect, hsm2, schedule_alerts, h]
    · intro h
      have h2 : ¬ (now + 3600 < endT) := by omega
      simp [on_message_detect, hsm2, schedule_alerts, h2]

/-- C8 witness: an auction ending in 90 minutes gets its halfway alert
at now+45m (2700s) and its one-hour alert at now+30m (1800s); one
ending in 50 minutes gets neither. -/
theorem alert_schedule_times_witness :
    (track_auction 10 1 5400 0 initState).jobs =
      [⟨AlertKind.halfway, 10, 1, 2700⟩, ⟨AlertKind.oneHour, 10, 1, 1800⟩] ∧
    (track_auction 10 1 3000 0 initState).jobs = [] := by
  constructor
  · rw [(alert_schedule_times 10 1 0 5400 initState).1 (by decide)]
    rfl
  · rw [(alert_schedule_times 10 1 0 3000 initState).2.1 (by decide)]
    rfl
